import Mathlib

/-
Verification of the TSCNS hardware-clock calibration header (tscns.h).

Modelling choices (shallow embedding):
* `double` values are modelled as exact rationals (ℚ).  All the doubles the
  claims exercise are exactly representable, and the C arithmetic on them is
  idealized as exact rational arithmetic.
* `uint64_t` values are natural numbers, with wrap-around written explicitly
  as `% 2 ^ 64`; a cast to `int64_t` is `toInt64`, a cast back is `toUInt64`.
* The C cast `(int64_t)d` of a double `d` truncates toward zero; it is
  modelled by `ratTrunc` (assuming the value fits, as the code does).
* The two hardware sampling primitives `rdtsc` and `rdsysns` are external
  inputs: `syncTime` is a function of the lists of samples the ten sampling
  rounds would observe (`tscs.getD i 0` is `tscs[i]`, `nses.getD i 0` is
  `nses[i]`), and `init` / `calibrate` take those sample lists as arguments.
-/

namespace TSC

/-- Truncation of a rational toward zero: the semantics of the C cast from
`double` to `int64_t` (for in-range values). -/
def ratTrunc (q : ℚ) : ℤ := if 0 ≤ q then ⌊q⌋ else ⌈q⌉

/-- Reduction of an integer to its unsigned 64-bit representative
(conversion of a signed value to `uint64_t`). -/
def toUInt64 (i : ℤ) : ℕ := (i % (2 ^ 64 : ℤ)).toNat

/-- Reinterpretation of an unsigned 64-bit value as a signed `int64_t`. -/
def toInt64 (n : ℕ) : ℤ :=
  if n % 2 ^ 64 < 2 ^ 63 then (n % 2 ^ 64 : ℤ) else (n % 2 ^ 64 : ℤ) - 2 ^ 64

/-- `uint64_t` subtraction `a - b` (wrapping modulo `2 ^ 64`). -/
def usub64 (a b : ℕ) : ℕ := toUInt64 ((a : ℤ) - (b : ℤ))

/-- The state of a `TSCNS` object: the four member variables of the class.
`tsc_ghz_inv` is a `double` (modelled as ℚ), the other three are `uint64_t`. -/
structure TSCNS where
  tsc_ghz_inv : ℚ
  ns_offset : ℕ
  base_tsc : ℕ
  base_ns : ℕ

/-- The member-initializer state of a freshly constructed `TSCNS`:
`tsc_ghz_inv = 1.0`, `ns_offset = 0`, `base_tsc = 0`, `base_ns = 0`. -/
def default0 : TSCNS := ⟨1, 0, 0, 0⟩

/-- The adjacent tick delta `tscs[i] - tscs[i-1]` of round `i`
(`uint64_t` subtraction). -/
def tscDelta (tscs : List ℕ) (i : ℕ) : ℕ :=
  usub64 (tscs.getD i 0) (tscs.getD (i - 1) 0)

/-- The minimum-selection loop of `syncTime`: starting from candidate `b0`,
scan the indices in `l` and keep the index with the strictly smaller
`d`-value. -/
def selectMin (d : ℕ → ℕ) (b0 : ℕ) (l : List ℕ) : ℕ :=
  l.foldl (fun b i => if d i < d b then i else b) b0

/-- The index `best` computed by `syncTime`: the loop
`for (i = 2; i <= N; i++) if (tscs[i]-tscs[i-1] < tscs[best]-tscs[best-1]) best = i;`
with `N = 10`, starting from `best = 1`. -/
def bestIdx (tscs : List ℕ) : ℕ := selectMin (tscDelta tscs) 1 (List.range' 2 9)

/-- `TSCNS::syncTime`, as a function of the sampled `tscs[0..10]` and
`nses[1..10]`: returns `((tscs[best] + tscs[best-1]) >> 1, nses[best])`,
the sum taken in `uint64_t` arithmetic. -/
def syncTime (tscs nses : List ℕ) : ℕ × ℕ :=
  let best := bestIdx tscs
  (((tscs.getD best 0 + tscs.getD (best - 1) 0) % 2 ^ 64) / 2, nses.getD best 0)

/-- `TSCNS::adjustOffset`:
`ns_offset = base_ns - (int64_t)((int64_t)base_tsc * tsc_ghz_inv)`. -/
def adjustOffset (s : TSCNS) : TSCNS :=
  { s with
    ns_offset :=
      toUInt64 ((s.base_ns : ℤ) - ratTrunc ((toInt64 s.base_tsc : ℚ) * s.tsc_ghz_inv)) }

/-- `TSCNS::init`, as a function of the samples its internal `syncTime` call
observes and of the `tsc_ghz` argument. -/
def init (tscs nses : List ℕ) (tsc_ghz : ℚ) (s : TSCNS) : TSCNS :=
  let p := syncTime tscs nses
  let s1 : TSCNS := { s with base_tsc := p.1, base_ns := p.2 }
  if tsc_ghz ≤ 0 then s1
  else adjustOffset { s1 with tsc_ghz_inv := 1 / tsc_ghz }

/-- `TSCNS::calibrate`, as a function of the samples its internal `syncTime`
call observes: returns the new state together with the returned frequency
`1.0 / tsc_ghz_inv`. -/
def calibrate (tscs nses : List ℕ) (s : TSCNS) : TSCNS × ℚ :=
  let p := syncTime tscs nses
  let ghzInv : ℚ :=
    (toInt64 (usub64 p.2 s.base_ns) : ℚ) / (toInt64 (usub64 p.1 s.base_tsc) : ℚ)
  let s1 := adjustOffset { s with tsc_ghz_inv := ghzInv }
  (s1, 1 / ghzInv)

/-- `TSCNS::tsc2ns`:
`return ns_offset + (int64_t)((int64_t)tsc * tsc_ghz_inv);`
(the signed product truncated to `int64_t`, then added to the `uint64_t`
offset, wrapping modulo `2 ^ 64`). -/
def tsc2ns (s : TSCNS) (tsc : ℕ) : ℕ :=
  (s.ns_offset + toUInt64 (ratTrunc ((toInt64 tsc : ℚ) * s.tsc_ghz_inv))) % 2 ^ 64

/-- `TSCNS::rdns`, as a function of the tick value `rdtsc()` returns. -/
def rdns (s : TSCNS) (tsc : ℕ) : ℕ := tsc2ns s tsc

/-- `TSCNS::rdoffset`. -/
def rdoffset (s : TSCNS) : ℕ := s.ns_offset

/-- The mathematical signed conversion value before the final `uint64_t`
wrap: `(int64_t)ns_offset + (int64_t)((int64_t)tsc * tsc_ghz_inv)`. -/
def signedConv (s : TSCNS) (tsc : ℕ) : ℤ :=
  toInt64 s.ns_offset + ratTrunc ((toInt64 tsc : ℚ) * s.tsc_ghz_inv)

/-! ### Basic facts about the 64-bit casts -/

theorem toUInt64_emod (i : ℤ) : (toUInt64 i : ℤ) = i % 2 ^ 64 := by
  unfold toUInt64; omega

theorem toUInt64_lt (i : ℤ) : toUInt64 i < 2 ^ 64 := by
  unfold toUInt64; omega

theorem toInt64_of_lt (n : ℕ) (h : n < 2 ^ 63) : toInt64 n = n := by
  unfold toInt64; split <;> omega

theorem toUInt64_ofNat (n : ℕ) (h : n < 2 ^ 64) : toUInt64 (n : ℤ) = n := by
  unfold toUInt64; omega

theorem toUInt64_cast (i : ℤ) (h0 : 0 ≤ i) (h1 : i < 2 ^ 64) :
    (toUInt64 i : ℤ) = i := by
  unfold toUInt64; omega

theorem toInt64_toUInt64 (i : ℤ) (h0 : -2 ^ 63 ≤ i) (h1 : i < 2 ^ 63) :
    toInt64 (toUInt64 i) = i := by
  unfold toInt64 toUInt64; split <;> omega

theorem toUInt64_mono (x y : ℤ) (h0 : 0 ≤ x) (hxy : x ≤ y) (h1 : y < 2 ^ 64) :
    toUInt64 x ≤ toUInt64 y := by
  unfold toUInt64; omega

theorem usub64_of_le (a b : ℕ) (hba : b ≤ a) (ha : a - b < 2 ^ 64) :
    usub64 a b = a - b := by
  unfold usub64 toUInt64; omega

theorem usub64_add (b c : ℕ) (hc : c < 2 ^ 64) : usub64 (b + c) b = c := by
  unfold usub64 toUInt64; omega

/-! ### Basic facts about truncation toward zero -/

theorem ratTrunc_intCast (m : ℤ) : ratTrunc (m : ℚ) = m := by
  unfold ratTrunc; split
  · exact Int.floor_intCast m
  · exact Int.ceil_intCast m

theorem ratTrunc_natCast (n : ℕ) : ratTrunc (n : ℚ) = n := by
  have h := ratTrunc_intCast (n : ℤ)
  rwa [Int.cast_natCast] at h

theorem ratTrunc_of_nonneg (q : ℚ) (h : 0 ≤ q) : ratTrunc q = ⌊q⌋ := by
  unfold ratTrunc; exact if_pos h

theorem ratTrunc_mono (q1 q2 : ℚ) (h : q1 ≤ q2) : ratTrunc q1 ≤ ratTrunc q2 := by
  unfold ratTrunc
  split <;> split
  · exact Int.floor_le_floor h
  · rename_i h1 h2
    exact absurd (le_trans h1 h) h2
  · rename_i h1 h2
    have hq1 : q1 ≤ 0 := le_of_lt (lt_of_not_le h1)
    have h3 : ⌈q1⌉ ≤ (0 : ℤ) := Int.ceil_le.mpr (by exact_mod_cast hq1)
    have h4 : (0 : ℤ) ≤ ⌊q2⌋ := Int.floor_nonneg.mpr h2
    omega
  · exact Int.ceil_le_ceil h

/-- The conversion `tsc2ns`, computed with unsigned wrapping additions,
agrees with the signed mathematical value reduced modulo `2 ^ 64`. -/
theorem tsc2ns_eq_signedConv (s : TSCNS) (t : ℕ) :
    tsc2ns s t = toUInt64 (signedConv s t) := by
  unfold tsc2ns signedConv toUInt64 toInt64
  split <;> omega

/-- Writing `base_ns - x` and later adding `x` back, both modulo `2 ^ 64`,
recovers `base_ns` exactly. -/
theorem offset_roundtrip (bn : ℕ) (t : ℤ) (h : bn < 2 ^ 64) :
    (toUInt64 ((bn : ℤ) - t) + toUInt64 t) % 2 ^ 64 = bn := by
  unfold toUInt64; omega

/-! ### The minimum-selection loop of syncTime -/

theorem selectMin_spec (d : ℕ → ℕ) :
    ∀ (l : List ℕ) (b0 : ℕ), (∀ i ∈ l, b0 < i) → l.Pairwise (· < ·) →
    (selectMin d b0 l = b0 ∨ selectMin d b0 l ∈ l) ∧
    d (selectMin d b0 l) ≤ d b0 ∧
    (∀ i ∈ l, d (selectMin d b0 l) ≤ d i) ∧
    (b0 < selectMin d b0 l → d (selectMin d b0 l) < d b0) ∧
    (∀ i ∈ l, i < selectMin d b0 l → d (selectMin d b0 l) < d i) := by
  intro l
  induction l with
  | nil =>
    intro b0 _ _
    refine ⟨Or.inl rfl, le_refl _, ?_, ?_, ?_⟩
    · intro i hi; exact absurd hi (List.not_mem_nil i)
    · intro h; exact absurd h (lt_irrefl b0)
    · intro i hi; exact absurd hi (List.not_mem_nil i)
  | cons x xs ih =>
    intro b0 hlt hpw
    have hb0x : b0 < x := hlt x (List.mem_cons_self x xs)
    have hpw' := (List.pairwise_cons.mp hpw)
    have hxxs : ∀ i ∈ xs, x < i := hpw'.1
    have hpwxs : xs.Pairwise (· < ·) := hpw'.2
    have hstep : selectMin d b0 (x :: xs) = selectMin d (if d x < d b0 then x else b0) xs := rfl
    by_cases hcase : d x < d b0
    · rw [hstep, if_pos hcase]
      obtain ⟨hmem, hle, hall, hs0, hsm⟩ := ih x hxxs hpwxs
      set r := selectMin d x xs with hr
      refine ⟨?_, ?_, ?_, ?_, ?_⟩
      · rcases hmem with h | h
        · exact Or.inr (h ▸ List.mem_cons_self x xs)
        · exact Or.inr (List.mem_cons_of_mem x h)
      · exact le_trans hle (le_of_lt hcase)
      · intro i hi
        rcases List.mem_cons.mp hi with h | h
        · exact h ▸ hle
        · exact hall i h
      · intro _; exact lt_of_le_of_lt hle hcase
      · intro i hi hir
        rcases List.mem_cons.mp hi with h | h
        · subst h; exact hs0 hir
        · exact hsm i h hir
    · rw [hstep, if_neg hcase]
      have hle0 : d b0 ≤ d x := Nat.le_of_not_lt hcase
      have hb0xs : ∀ i ∈ xs, b0 < i := fun i hi => lt_trans hb0x (hxxs i hi)
      obtain ⟨hmem, hle, hall, hs0, hsm⟩ := ih b0 hb0xs hpwxs
      set r := selectMin d b0 xs with hr
      refine ⟨?_, ?_, ?_, ?_, ?_⟩
      · rcases hmem with h | h
        · exact Or.inl h
        · exact Or.inr (List.mem_cons_of_mem x h)
      · exact hle
      · intro i hi
        rcases List.mem_cons.mp hi with h | h
        · exact h ▸ le_trans hle hle0
        · exact hall i h
      · exact hs0
      · intro i hi hir
        rcases List.mem_cons.mp hi with h | h
        · subst h
          have hb0r : b0 < r := lt_trans hb0x hir
          exact lt_of_lt_of_le (hs0 hb0r) hle0
        · exact hsm i h hir

theorem mem_range'_iff (i : ℕ) : i ∈ List.range' 2 9 ↔ 2 ≤ i ∧ i < 11 := by
  constructor
  · intro h; have := List.mem_range'_1.mp h; omega
  · intro h; exact List.mem_range'_1.mpr (by omega)

/-- The index chosen by the `syncTime` loop lies between 1 and `N = 10`,
minimizes the (wrapped) adjacent tick delta over rounds 1..10, and is the
lowest index achieving the minimum. -/
theorem bestIdx_spec (tscs : List ℕ) :
    (1 ≤ bestIdx tscs ∧ bestIdx tscs ≤ 10) ∧
    (∀ i, 1 ≤ i → i < 11 → tscDelta tscs (bestIdx tscs) ≤ tscDelta tscs i) ∧
    (∀ i, 1 ≤ i → i < bestIdx tscs → tscDelta tscs (bestIdx tscs) < tscDelta tscs i) := by
  have hlt : ∀ i ∈ List.range' 2 9, 1 < i := by decide
  have hpw : (List.range' 2 9).Pairwise (· < ·) := by decide
  obtain ⟨hmem, hle, hall, hs0, hsm⟩ :=
    selectMin_spec (tscDelta tscs) (List.range' 2 9) 1 hlt hpw
  have hb : bestIdx tscs = selectMin (tscDelta tscs) 1 (List.range' 2 9) := rfl
  rw [← hb] at hmem hle hall hs0 hsm
  have hbounds : 1 ≤ bestIdx tscs ∧ bestIdx tscs ≤ 10 := by
    rcases hmem with h | h
    · omega
    · have := (mem_range'_iff _).mp h; omega
  refine ⟨hbounds, ?_, ?_⟩
  · intro i h1 h2
    rcases Nat.eq_or_lt_of_le h1 with h | h
    · exact h ▸ hle
    · exact hall i ((mem_range'_iff i).mpr (by omega))
  · intro i h1 h2
    rcases Nat.eq_or_lt_of_le h1 with h | h
    · subst h; exact hs0 h2
    · exact hsm i ((mem_range'_iff i).mpr (by omega)) h2

/-! ### Projection lemmas for the stateful operations -/

theorem syncTime_fst (tscs nses : List ℕ) :
    (syncTime tscs nses).1 =
      ((tscs.getD (bestIdx tscs) 0 + tscs.getD (bestIdx tscs - 1) 0) % 2 ^ 64) / 2 := rfl

theorem syncTime_snd (tscs nses : List ℕ) :
    (syncTime tscs nses).2 = nses.getD (bestIdx tscs) 0 := rfl

theorem init_inv (tscs nses : List ℕ) (g : ℚ) (s : TSCNS) :
    (init tscs nses g s).tsc_ghz_inv = if g ≤ 0 then s.tsc_ghz_inv else 1 / g := by
  unfold init adjustOffset
  split <;> rfl

theorem init_offset_of_nonpos (tscs nses : List ℕ) (g : ℚ) (s : TSCNS) (hg : g ≤ 0) :
    (init tscs nses g s).ns_offset = s.ns_offset := by
  simp only [init]
  rw [if_pos hg]

theorem init_base (tscs nses : List ℕ) (g : ℚ) (s : TSCNS) :
    (init tscs nses g s).base_tsc = (syncTime tscs nses).1 ∧
    (init tscs nses g s).base_ns = (syncTime tscs nses).2 := by
  unfold init adjustOffset
  split <;> exact ⟨rfl, rfl⟩

theorem calibrate_inv (tscs nses : List ℕ) (s : TSCNS) :
    (calibrate tscs nses s).1.tsc_ghz_inv =
      (toInt64 (usub64 (syncTime tscs nses).2 s.base_ns) : ℚ) /
        (toInt64 (usub64 (syncTime tscs nses).1 s.base_tsc) : ℚ) := rfl

theorem calibrate_snd (tscs nses : List ℕ) (s : TSCNS) :
    (calibrate tscs nses s).2 = 1 / (calibrate tscs nses s).1.tsc_ghz_inv := rfl

/-! ### The claims -/

/-- Claim C1 (corrected): `tsc2ns` computes
`offsetNs + trunc((signed)ticks * scaleInv)` reduced modulo `2 ^ 64`, where
the product `(int64_t)tsc * tsc_ghz_inv` is computed in signed arithmetic
and `trunc` truncates the product toward zero (the semantics of the C cast
to `int64_t`) — not rounded to the nearest integer as the claim states. -/
theorem tsc2ns_trunc_signed (s : TSCNS) (t : ℕ) :
    tsc2ns s t =
      toUInt64 (toInt64 s.ns_offset + ratTrunc ((toInt64 t : ℚ) * s.tsc_ghz_inv)) :=
  tsc2ns_eq_signedConv s t

/-- Counterexample to Claim C1 as stated: with `scaleInv = 1/2`,
`offsetNs = 0` and `ticks = 3`, the product is `1.5`; the code truncates it
to `1`, while `offsetNs + round(ticks * scaleInv)` would be `2`. -/
theorem claim1_counterexample :
    tsc2ns ⟨1 / 2, 0, 0, 0⟩ 3 ≠
      toUInt64 (toInt64 (0 : ℕ) + round ((toInt64 (3 : ℕ) : ℚ) * (1 / 2 : ℚ))) := by
  have e1 : toInt64 (3 : ℕ) = (3 : ℤ) := by decide
  have h1 : tsc2ns ⟨1 / 2, 0, 0, 0⟩ 3 = 1 := by
    show ((0 : ℕ) + toUInt64 (ratTrunc ((toInt64 (3 : ℕ) : ℚ) * (1 / 2 : ℚ)))) % 2 ^ 64 = 1
    rw [e1]
    have e2 : (((3 : ℤ) : ℚ)) * (1 / 2 : ℚ) = 3 / 2 := by norm_num
    rw [e2, ratTrunc_of_nonneg _ (by norm_num)]
    have e3 : ⌊(3 / 2 : ℚ)⌋ = 1 := by
      rw [Int.floor_eq_iff]
      norm_num
    rw [e3]
    decide
  have h2 : toUInt64 (toInt64 (0 : ℕ) + round ((toInt64 (3 : ℕ) : ℚ) * (1 / 2 : ℚ))) = 2 := by
    rw [e1]
    have e2 : (((3 : ℤ) : ℚ)) * (1 / 2 : ℚ) = 3 / 2 := by norm_num
    rw [e2, round_eq]
    have e3 : (3 / 2 : ℚ) + 1 / 2 = ((2 : ℤ) : ℚ) := by norm_num
    rw [e3, Int.floor_intCast]
    decide
  rw [h1, h2]
  decide

/-- Claim C2 (confirmed): over the `N = 10` sampling rounds, `syncTime`
selects the round `best` whose adjacent tick delta is minimal, breaking
ties toward the lowest index, and returns the midpoint
`(tscs[best] + tscs[best-1]) / 2` paired with `nses[best]`
(stated for non-decreasing samples below `2 ^ 63`, as a hardware counter
produces, so no 64-bit wrap occurs). -/
theorem syncTime_selects_min_delta (tscs nses : List ℕ)
    (hmono : ∀ i, i < 10 → tscs.getD i 0 ≤ tscs.getD (i + 1) 0)
    (hbound : ∀ i, i < 11 → tscs.getD i 0 < 2 ^ 63) :
    1 ≤ bestIdx tscs ∧ bestIdx tscs ≤ 10 ∧
    (∀ i, 1 ≤ i → i < 11 →
      tscs.getD (bestIdx tscs) 0 - tscs.getD (bestIdx tscs - 1) 0 ≤
        tscs.getD i 0 - tscs.getD (i - 1) 0) ∧
    (∀ i, 1 ≤ i → i < bestIdx tscs →
      tscs.getD (bestIdx tscs) 0 - tscs.getD (bestIdx tscs - 1) 0 <
        tscs.getD i 0 - tscs.getD (i - 1) 0) ∧
    syncTime tscs nses =
      ((tscs.getD (bestIdx tscs) 0 + tscs.getD (bestIdx tscs - 1) 0) / 2,
        nses.getD (bestIdx tscs) 0) := by
  obtain ⟨⟨hb1, hb10⟩, hmin, htie⟩ := bestIdx_spec tscs
  have hdelta : ∀ i, 1 ≤ i → i < 11 →
      tscDelta tscs i = tscs.getD i 0 - tscs.getD (i - 1) 0 := by
    intro i hi1 hi2
    have hle : tscs.getD (i - 1) 0 ≤ tscs.getD i 0 := by
      have h := hmono (i - 1) (by omega)
      have he : i - 1 + 1 = i := by omega
      rwa [he] at h
    have hlt : tscs.getD i 0 < 2 ^ 63 := hbound i hi2
    unfold tscDelta
    exact usub64_of_le _ _ hle (by omega)
  refine ⟨hb1, hb10, ?_, ?_, ?_⟩
  · intro i hi1 hi2
    have h := hmin i hi1 hi2
    rwa [hdelta _ hb1 (by omega), hdelta _ hi1 hi2] at h
  · intro i hi1 hi2
    have h := htie i hi1 hi2
    rwa [hdelta _ hb1 (by omega), hdelta _ hi1 (by omega)] at h
  · have hsum : tscs.getD (bestIdx tscs) 0 + tscs.getD (bestIdx tscs - 1) 0 < 2 ^ 64 := by
      have h1 := hbound (bestIdx tscs) (by omega)
      have h2 := hbound (bestIdx tscs - 1) (by omega)
      omega
    have he : syncTime tscs nses =
        (((tscs.getD (bestIdx tscs) 0 + tscs.getD (bestIdx tscs - 1) 0) % 2 ^ 64) / 2,
          nses.getD (bestIdx tscs) 0) := rfl
    rw [he, Nat.mod_eq_of_lt hsum]

/-- Witness for Claim C2: on the concrete sample list below, round 5 has
the smallest adjacent delta (`31 - 30 = 1`) and is selected. -/
theorem syncTime_selects_min_delta_witness :
    bestIdx [5, 10, 13, 15, 30, 31, 50, 70, 90, 110, 130] = 5 ∧
    (1 ≤ bestIdx [5, 10, 13, 15, 30, 31, 50, 70, 90, 110, 130] ∧
     bestIdx [5, 10, 13, 15, 30, 31, 50, 70, 90, 110, 130] ≤ 10 ∧
     (∀ i, 1 ≤ i → i < 11 →
       [5, 10, 13, 15, 30, 31, 50, 70, 90, 110, 130].getD
           (bestIdx [5, 10, 13, 15, 30, 31, 50, 70, 90, 110, 130]) 0 -
         [5, 10, 13, 15, 30, 31, 50, 70, 90, 110, 130].getD
           (bestIdx [5, 10, 13, 15, 30, 31, 50, 70, 90, 110, 130] - 1) 0 ≤
       [5, 10, 13, 15, 30, 31, 50, 70, 90, 110, 130].getD i 0 -
         [5, 10, 13, 15, 30, 31, 50, 70, 90, 110, 130].getD (i - 1) 0) ∧
     (∀ i, 1 ≤ i → i < bestIdx [5, 10, 13, 15, 30, 31, 50, 70, 90, 110, 130] →
       [5, 10, 13, 15, 30, 31, 50, 70, 90, 110, 130].getD
           (bestIdx [5, 10, 13, 15, 30, 31, 50, 70, 90, 110, 130]) 0 -
         [5, 10, 13, 15, 30, 31, 50, 70, 90, 110, 130].getD
           (bestIdx [5, 10, 13, 15, 30, 31, 50, 70, 90, 110, 130] - 1) 0 <
       [5, 10, 13, 15, 30, 31, 50, 70, 90, 110, 130].getD i 0 -
         [5, 10, 13, 15, 30, 31, 50, 70, 90, 110, 130].getD (i - 1) 0) ∧
     syncTime [5, 10, 13, 15, 30, 31, 50, 70, 90, 110, 130]
         [0, 1, 2, 3, 4, 5, 6, 7, 8, 9, 10] =
       (([5, 10, 13, 15, 30, 31, 50, 70, 90, 110, 130].getD
            (bestIdx [5, 10, 13, 15, 30, 31, 50, 70, 90, 110, 130]) 0 +
          [5, 10, 13, 15, 30, 31, 50, 70, 90, 110, 130].getD
            (bestIdx [5, 10, 13, 15, 30, 31, 50, 70, 90, 110, 130] - 1) 0) / 2,
         [0, 1, 2, 3, 4, 5, 6, 7, 8, 9, 10].getD
           (bestIdx [5, 10, 13, 15, 30, 31, 50, 70, 90, 110, 130]) 0)) :=
  ⟨by decide,
   syncTime_selects_min_delta [5, 10, 13, 15, 30, 31, 50, 70, 90, 110, 130]
     [0, 1, 2, 3, 4, 5, 6, 7, 8, 9, 10] (by decide) (by decide)⟩

/-- Claim C5 (confirmed): re-initializing with the frequency previously
returned by `calibrate` leaves `tsc_ghz_inv` numerically unchanged
(exactly, in the idealized arithmetic): `1 / (1 / q) = q`, and a
non-positive frequency takes the early-return path that does not write the
scale at all. -/
theorem reinit_preserves_scale (s : TSCNS) (t1 n1 t2 n2 : List ℕ) :
    (init t2 n2 (calibrate t1 n1 s).2 (calibrate t1 n1 s).1).tsc_ghz_inv =
      (calibrate t1 n1 s).1.tsc_ghz_inv := by
  rw [init_inv]
  split
  · rfl
  · rw [calibrate_snd, one_div_one_div]

/-- Claim C3 (confirmed): `calibrate` sets
`tsc_ghz_inv = (signed)(delayed_ns - base_ns) / (signed)(delayed_tsc - base_tsc)`
and returns its reciprocal; when the second probe exceeds the base pair by
exactly `3e9` ticks and `1e9` ns, it returns frequency `3` and sets the
scale to `1/3`. -/
theorem calibrate_scale_freq (s : TSCNS) (tscs nses : List ℕ) (dts dns : ℕ)
    (hsync : syncTime tscs nses = (s.base_tsc + dts, s.base_ns + dns))
    (h1 : dts < 2 ^ 63) (h2 : dns < 2 ^ 63) :
    (calibrate tscs nses s).1.tsc_ghz_inv = (dns : ℚ) / (dts : ℚ) ∧
    (calibrate tscs nses s).2 = (dts : ℚ) / (dns : ℚ) ∧
    (dts = 3000000000 → dns = 1000000000 →
      (calibrate tscs nses s).1.tsc_ghz_inv = 1 / 3 ∧
      (calibrate tscs nses s).2 = 3) := by
  have hfst : (syncTime tscs nses).1 = s.base_tsc + dts := by rw [hsync]
  have hsnd : (syncTime tscs nses).2 = s.base_ns + dns := by rw [hsync]
  have hn : toInt64 (usub64 (syncTime tscs nses).2 s.base_ns) = (dns : ℤ) := by
    rw [hsnd, usub64_add _ _ (by omega), toInt64_of_lt _ h2]
  have hd : toInt64 (usub64 (syncTime tscs nses).1 s.base_tsc) = (dts : ℤ) := by
    rw [hfst, usub64_add _ _ (by omega), toInt64_of_lt _ h1]
  have einv : (calibrate tscs nses s).1.tsc_ghz_inv = (dns : ℚ) / (dts : ℚ) := by
    rw [calibrate_inv, hn, hd]
    push_cast
    rfl
  have efreq : (calibrate tscs nses s).2 = (dts : ℚ) / (dns : ℚ) := by
    rw [calibrate_snd, einv, one_div_div]
  refine ⟨einv, efreq, fun hdts hdns => ⟨?_, ?_⟩⟩
  · rw [einv, hdts, hdns]
    norm_num
  · rw [efreq, hdts, hdns]
    norm_num

/-- Witness for Claim C3: base pair `(1e9 ticks, 5e9 ns)`, second probe
`(4e9 ticks, 6e9 ns)`: frequency `3`, scale `1/3`. -/
theorem calibrate_scale_freq_witness :
    (calibrate (List.replicate 11 4000000000) (List.replicate 11 6000000000)
        ⟨1, 0, 1000000000, 5000000000⟩).1.tsc_ghz_inv = 1 / 3 ∧
    (calibrate (List.replicate 11 4000000000) (List.replicate 11 6000000000)
        ⟨1, 0, 1000000000, 5000000000⟩).2 = 3 :=
  (calibrate_scale_freq ⟨1, 0, 1000000000, 5000000000⟩
      (List.replicate 11 4000000000) (List.replicate 11 6000000000)
      3000000000 1000000000 (by decide) (by decide) (by decide)).2.2 rfl rfl

/-- Claim C4 (confirmed): `calibrate` recomputes `ns_offset` from the
original base pair (`base_tsc`, `base_ns`), which it leaves untouched, so
converting `base_tsc` afterwards recovers `base_ns` exactly (the same
truncated product is subtracted and added back modulo `2 ^ 64`). -/
theorem calibrate_preserves_anchor (s : TSCNS) (tscs nses : List ℕ)
    (h : s.base_ns < 2 ^ 64) :
    (calibrate tscs nses s).1.base_tsc = s.base_tsc ∧
    (calibrate tscs nses s).1.base_ns = s.base_ns ∧
    (calibrate tscs nses s).1.ns_offset =
      toUInt64 ((s.base_ns : ℤ) -
        ratTrunc ((toInt64 s.base_tsc : ℚ) * (calibrate tscs nses s).1.tsc_ghz_inv)) ∧
    tsc2ns (calibrate tscs nses s).1 s.base_tsc = s.base_ns := by
  refine ⟨rfl, rfl, rfl, ?_⟩
  show ((calibrate tscs nses s).1.ns_offset +
      toUInt64 (ratTrunc ((toInt64 s.base_tsc : ℚ) *
        (calibrate tscs nses s).1.tsc_ghz_inv))) % 2 ^ 64 = s.base_ns
  rw [show (calibrate tscs nses s).1.ns_offset =
      toUInt64 ((s.base_ns : ℤ) -
        ratTrunc ((toInt64 s.base_tsc : ℚ) * (calibrate tscs nses s).1.tsc_ghz_inv))
    from rfl]
  exact offset_roundtrip _ _ h

/-- Witness for Claim C4: the end-to-end scenario of the spec — base pair
`(1e9, 5e9)`, probe `(7e9, 7e9)`: converting the base tick recovers
`5e9`. -/
theorem calibrate_preserves_anchor_witness :
    (calibrate (List.replicate 11 7000000000) (List.replicate 11 7000000000)
        ⟨1, 0, 1000000000, 5000000000⟩).1.base_tsc = 1000000000 ∧
    (calibrate (List.replicate 11 7000000000) (List.replicate 11 7000000000)
        ⟨1, 0, 1000000000, 5000000000⟩).1.base_ns = 5000000000 ∧
    (calibrate (List.replicate 11 7000000000) (List.replicate 11 7000000000)
        ⟨1, 0, 1000000000, 5000000000⟩).1.ns_offset =
      toUInt64 ((5000000000 : ℤ) -
        ratTrunc ((toInt64 1000000000 : ℚ) *
          (calibrate (List.replicate 11 7000000000) (List.replicate 11 7000000000)
              ⟨1, 0, 1000000000, 5000000000⟩).1.tsc_ghz_inv)) ∧
    tsc2ns (calibrate (List.replicate 11 7000000000) (List.replicate 11 7000000000)
        ⟨1, 0, 1000000000, 5000000000⟩).1 1000000000 = 5000000000 :=
  calibrate_preserves_anchor ⟨1, 0, 1000000000, 5000000000⟩
    (List.replicate 11 7000000000) (List.replicate 11 7000000000) (by decide)

/-- Claim C9 (corrected): `init` with a non-positive scale returns before
touching `tsc_ghz_inv` or `ns_offset`, leaving both at their *previous*
values — which are the defaults `1.0` and `0` only when `init` is the
first operation on a default-constructed object.  After a `calibrate`,
a later `init(0)` keeps the calibrated scale, not `1.0`. -/
theorem init_nonpositive_preserves (s : TSCNS) (tscs nses : List ℕ) (g : ℚ)
    (hg : g ≤ 0) :
    (init tscs nses g s).tsc_ghz_inv = s.tsc_ghz_inv ∧
    (init tscs nses g s).ns_offset = s.ns_offset ∧
    (init tscs nses g default0).tsc_ghz_inv = 1 ∧
    (init tscs nses g default0).ns_offset = 0 := by
  refine ⟨?_, init_offset_of_nonpos _ _ _ _ hg, ?_,
    init_offset_of_nonpos _ _ _ _ hg⟩
  · rw [init_inv, if_pos hg]
  · rw [init_inv, if_pos hg]
    rfl

/-- Witness for Claim C9's amended statement, at scale argument `0` on the
default-constructed state. -/
theorem init_nonpositive_preserves_witness :
    (init (List.replicate 11 0) (List.replicate 11 0) 0 default0).tsc_ghz_inv =
      default0.tsc_ghz_inv ∧
    (init (List.replicate 11 0) (List.replicate 11 0) 0 default0).ns_offset =
      default0.ns_offset ∧
    (init (List.replicate 11 0) (List.replicate 11 0) 0 default0).tsc_ghz_inv = 1 ∧
    (init (List.replicate 11 0) (List.replicate 11 0) 0 default0).ns_offset = 0 :=
  init_nonpositive_preserves default0 (List.replicate 11 0) (List.replicate 11 0) 0
    le_rfl

/-- Counterexample to Claim C9 as stated: run `init(0)` on a fresh object,
then `calibrate` (which derives scale `1/3`), then `init(0)` again.  After
this last zero-scale `init`, `tsc_ghz_inv` is `1/3`, not the default
`1.0`. -/
theorem claim9_counterexample :
    (init (List.replicate 11 7000000000) (List.replicate 11 7000000000) 0
        (calibrate (List.replicate 11 4000000000) (List.replicate 11 6000000000)
          (init (List.replicate 11 1000000000) (List.replicate 11 5000000000) 0
            default0)).1).tsc_ghz_inv ≠ 1 := by
  rw [init_inv, if_pos le_rfl, calibrate_inv]
  have hb := init_base (List.replicate 11 1000000000) (List.replicate 11 5000000000) 0
    default0
  rw [hb.1, hb.2]
  rw [show (syncTime (List.replicate 11 1000000000) (List.replicate 11 5000000000)).1 =
      1000000000 from by decide]
  rw [show (syncTime (List.replicate 11 1000000000) (List.replicate 11 5000000000)).2 =
      5000000000 from by decide]
  rw [show toInt64 (usub64
      (syncTime (List.replicate 11 4000000000) (List.replicate 11 6000000000)).2
      5000000000) = (1000000000 : ℤ) from by decide]
  rw [show toInt64 (usub64
      (syncTime (List.replicate 11 4000000000) (List.replicate 11 6000000000)).1
      1000000000) = (3000000000 : ℤ) from by decide]
  norm_num

/-- Claim C10 (confirmed): the operations are total functions of the
retrieved samples; in particular, when the counter has advanced past the
base sample by the time of the calibration probe (every probe tick above
`base_tsc` and below `2 ^ 63`, as on real hardware), the signed divisor
`(int64_t)(delayed_tsc - base_tsc)` of `calibrate` is nonzero and the
division is exact: the computed scale times the divisor gives back the
numerator. -/
theorem calibrate_divisor_nonzero (s : TSCNS) (tscs nses : List ℕ)
    (hall : ∀ i, i < 11 → s.base_tsc < tscs.getD i 0 ∧ tscs.getD i 0 < 2 ^ 63) :
    toInt64 (usub64 (syncTime tscs nses).1 s.base_tsc) ≠ 0 ∧
    (calibrate tscs nses s).1.tsc_ghz_inv *
        (toInt64 (usub64 (syncTime tscs nses).1 s.base_tsc) : ℚ) =
      (toInt64 (usub64 (syncTime tscs nses).2 s.base_ns) : ℚ) := by
  obtain ⟨⟨hb1, hb10⟩, -, -⟩ := bestIdx_spec tscs
  have hx := hall (bestIdx tscs) (by omega)
  have hy := hall (bestIdx tscs - 1) (by omega)
  have hdt : (syncTime tscs nses).1 =
      (tscs.getD (bestIdx tscs) 0 + tscs.getD (bestIdx tscs - 1) 0) / 2 := by
    rw [syncTime_fst, Nat.mod_eq_of_lt (by omega)]
  have hgt : s.base_tsc < (syncTime tscs nses).1 := by rw [hdt]; omega
  have hlt : (syncTime tscs nses).1 < 2 ^ 63 := by rw [hdt]; omega
  have hu : usub64 (syncTime tscs nses).1 s.base_tsc =
      (syncTime tscs nses).1 - s.base_tsc :=
    usub64_of_le _ _ (le_of_lt hgt) (by omega)
  have hne : toInt64 (usub64 (syncTime tscs nses).1 s.base_tsc) ≠ 0 := by
    rw [hu, toInt64_of_lt _ (by omega)]
    exact_mod_cast Nat.pos_iff_ne_zero.mp (by omega)
  refine ⟨hne, ?_⟩
  rw [calibrate_inv]
  exact div_mul_cancel₀ _ (Int.cast_ne_zero.mpr hne)

/-- Witness for Claim C10: base tick `5`, all probe ticks `100`. -/
theorem calibrate_divisor_nonzero_witness :
    toInt64 (usub64 (syncTime (List.replicate 11 100) (List.replicate 11 7)).1 5) ≠ 0 ∧
    (calibrate (List.replicate 11 100) (List.replicate 11 7) ⟨1, 0, 5, 0⟩).1.tsc_ghz_inv *
        (toInt64 (usub64 (syncTime (List.replicate 11 100) (List.replicate 11 7)).1 5) : ℚ) =
      (toInt64 (usub64 (syncTime (List.replicate 11 100) (List.replicate 11 7)).2 0) : ℚ) :=
  calibrate_divisor_nonzero ⟨1, 0, 5, 0⟩ (List.replicate 11 100) (List.replicate 11 7)
    (by decide)

/-- Claim C6 (corrected): for tick values read off a non-decreasing
counter, conversion is monotone as long as no 64-bit wrap is involved:
the scale is non-negative, both ticks are below `2 ^ 63` (so their signed
reinterpretation is order-preserving) and both signed conversion results
lie in `[0, 2 ^ 64)`.  Without those range conditions the claim is false
(see the counterexample). -/
theorem tsc2ns_monotone (s : TSCNS) (a b : ℕ)
    (hq : 0 ≤ s.tsc_ghz_inv) (hab : a ≤ b) (hb : b < 2 ^ 63)
    (hlo : 0 ≤ signedConv s a) (hhi : signedConv s b < 2 ^ 64) :
    tsc2ns s a ≤ tsc2ns s b := by
  have hmono : signedConv s a ≤ signedConv s b := by
    unfold signedConv
    rw [toInt64_of_lt a (by omega), toInt64_of_lt b hb]
    have hc : (((a : ℤ)) : ℚ) ≤ (((b : ℤ)) : ℚ) := by exact_mod_cast hab
    have h := ratTrunc_mono _ _ (mul_le_mul_of_nonneg_right hc hq)
    omega
  rw [tsc2ns_eq_signedConv, tsc2ns_eq_signedConv]
  exact toUInt64_mono _ _ hlo hmono hhi

/-- Witness for Claim C6's amended statement: scale `1`, offset `0`,
ticks `3 ≤ 5`. -/
theorem tsc2ns_monotone_witness :
    tsc2ns ⟨1, 0, 0, 0⟩ 3 ≤ tsc2ns ⟨1, 0, 0, 0⟩ 5 :=
  tsc2ns_monotone ⟨1, 0, 0, 0⟩ 3 5 (by norm_num) (by norm_num) (by norm_num)
    (by
      show (0 : ℤ) ≤ toInt64 0 + ratTrunc ((toInt64 3 : ℚ) * 1)
      rw [mul_one, show toInt64 3 = (3 : ℤ) from by decide,
        show toInt64 0 = (0 : ℤ) from by decide, ratTrunc_intCast]
      norm_num)
    (by
      show toInt64 0 + ratTrunc ((toInt64 5 : ℚ) * 1) < 2 ^ 64
      rw [mul_one, show toInt64 5 = (5 : ℤ) from by decide,
        show toInt64 0 = (0 : ℤ) from by decide, ratTrunc_intCast]
      norm_num)

/-- Counterexample to Claim C6 as stated: with a negative offset
(`ns_offset` holds `-1` as `2 ^ 64 - 1`) and scale `1`, tick `0` converts
to `2 ^ 64 - 1` but tick `1` wraps around to `0`: conversion is not
monotone for every pair of tick values. -/
theorem claim6_counterexample :
    ¬ (tsc2ns ⟨1, 2 ^ 64 - 1, 0, 0⟩ 0 ≤ tsc2ns ⟨1, 2 ^ 64 - 1, 0, 0⟩ 1) := by
  have h0 : tsc2ns ⟨1, 2 ^ 64 - 1, 0, 0⟩ 0 = 2 ^ 64 - 1 := by
    show ((2 ^ 64 - 1 : ℕ) + toUInt64 (ratTrunc ((toInt64 0 : ℚ) * 1))) % 2 ^ 64 =
      2 ^ 64 - 1
    rw [mul_one, show toInt64 0 = (0 : ℤ) from by decide, ratTrunc_intCast]
    decide
  have h1 : tsc2ns ⟨1, 2 ^ 64 - 1, 0, 0⟩ 1 = 0 := by
    show ((2 ^ 64 - 1 : ℕ) + toUInt64 (ratTrunc ((toInt64 1 : ℚ) * 1))) % 2 ^ 64 = 0
    rw [mul_one, show toInt64 1 = (1 : ℤ) from by decide, ratTrunc_intCast]
    decide
  rw [h0, h1]
  decide

/-- Claim C7 (corrected): conversion is linear to within one nanosecond —
`Convert(b) - Convert(a)` differs from `(b - a) * scaleInv` by strictly
less than `1` — provided no 64-bit wrap is involved: non-negative scale,
ticks below `2 ^ 63`, and signed conversion results in `[0, 2 ^ 64)`.
Without those range conditions the claim is false (see the
counterexample). -/
theorem tsc2ns_linearity (s : TSCNS) (a b : ℕ)
    (hq : 0 ≤ s.tsc_ghz_inv) (hab : a < b) (hb : b < 2 ^ 63)
    (hlo : 0 ≤ signedConv s a) (hhi : signedConv s b < 2 ^ 64) :
    |(((tsc2ns s b : ℕ) : ℤ) : ℚ) - (((tsc2ns s a : ℕ) : ℤ) : ℚ) -
        ((b : ℚ) - (a : ℚ)) * s.tsc_ghz_inv| < 1 := by
  have hqa : (0 : ℚ) ≤ (a : ℚ) * s.tsc_ghz_inv := mul_nonneg (by positivity) hq
  have hqb : (0 : ℚ) ≤ (b : ℚ) * s.tsc_ghz_inv := mul_nonneg (by positivity) hq
  have ea : signedConv s a = toInt64 s.ns_offset + ⌊(a : ℚ) * s.tsc_ghz_inv⌋ := by
    unfold signedConv
    rw [toInt64_of_lt a (by omega), Int.cast_natCast, ratTrunc_of_nonneg _ hqa]
  have eb : signedConv s b = toInt64 s.ns_offset + ⌊(b : ℚ) * s.tsc_ghz_inv⌋ := by
    unfold signedConv
    rw [toInt64_of_lt b hb, Int.cast_natCast, ratTrunc_of_nonneg _ hqb]
  have hmono : signedConv s a ≤ signedConv s b := by
    rw [ea, eb]
    have hc : (a : ℚ) ≤ (b : ℚ) := by exact_mod_cast le_of_lt hab
    have h := Int.floor_le_floor (mul_le_mul_of_nonneg_right hc hq)
    omega
  have hta : ((tsc2ns s a : ℕ) : ℤ) = signedConv s a := by
    rw [tsc2ns_eq_signedConv]
    exact toUInt64_cast _ hlo (lt_of_le_of_lt hmono hhi)
  have htb : ((tsc2ns s b : ℕ) : ℤ) = signedConv s b := by
    rw [tsc2ns_eq_signedConv]
    exact toUInt64_cast _ (le_trans hlo hmono) hhi
  rw [hta, htb, ea, eb]
  have fb1 := Int.floor_le ((b : ℚ) * s.tsc_ghz_inv)
  have fb2 := Int.lt_floor_add_one ((b : ℚ) * s.tsc_ghz_inv)
  have fa1 := Int.floor_le ((a : ℚ) * s.tsc_ghz_inv)
  have fa2 := Int.lt_floor_add_one ((a : ℚ) * s.tsc_ghz_inv)
  rw [abs_lt]
  push_cast
  constructor <;> nlinarith [fb1, fb2, fa1, fa2]

/-- Witness for Claim C7's amended statement: scale `1`, offset `0`,
ticks `3 < 5`. -/
theorem tsc2ns_linearity_witness :
    |(((tsc2ns ⟨1, 0, 0, 0⟩ 5 : ℕ) : ℤ) : ℚ) - (((tsc2ns ⟨1, 0, 0, 0⟩ 3 : ℕ) : ℤ) : ℚ) -
        ((5 : ℚ) - (3 : ℚ)) * 1| < 1 :=
  tsc2ns_linearity ⟨1, 0, 0, 0⟩ 3 5 (by norm_num) (by norm_num) (by norm_num)
    (by
      show (0 : ℤ) ≤ toInt64 0 + ratTrunc ((toInt64 3 : ℚ) * 1)
      rw [mul_one, show toInt64 3 = (3 : ℤ) from by decide,
        show toInt64 0 = (0 : ℤ) from by decide, ratTrunc_intCast]
      norm_num)
    (by
      show toInt64 0 + ratTrunc ((toInt64 5 : ℚ) * 1) < 2 ^ 64
      rw [mul_one, show toInt64 5 = (5 : ℤ) from by decide,
        show toInt64 0 = (0 : ℤ) from by decide, ratTrunc_intCast]
      norm_num)

/-- Counterexample to Claim C7 as stated: with scale `1/2` and offset `0`,
ticks `a = 2 ^ 63 - 2` and `b = 2 ^ 63` differ by two ticks, yet
`(int64_t)b` is negative, so `Convert(b)` wraps to `2 ^ 64 - 2 ^ 62` and
the difference `Convert(b) - Convert(a)` is astronomically far from
`(b - a) * scaleInv = 1`. -/
theorem claim7_counterexample :
    ¬ |(((tsc2ns ⟨1 / 2, 0, 0, 0⟩ (2 ^ 63) : ℕ) : ℤ) : ℚ) -
        (((tsc2ns ⟨1 / 2, 0, 0, 0⟩ (2 ^ 63 - 2) : ℕ) : ℤ) : ℚ) -
        (((2 ^ 63 : ℕ) : ℚ) - ((2 ^ 63 - 2 : ℕ) : ℚ)) * (1 / 2)| < 1 := by
  have ha : tsc2ns ⟨1 / 2, 0, 0, 0⟩ (2 ^ 63 - 2) = 2 ^ 62 - 1 := by
    show ((0 : ℕ) + toUInt64 (ratTrunc ((toInt64 (2 ^ 63 - 2) : ℚ) * (1 / 2)))) % 2 ^ 64 =
      2 ^ 62 - 1
    rw [show toInt64 (2 ^ 63 - 2) = ((2 ^ 63 - 2 : ℤ)) from by decide]
    rw [show (((2 ^ 63 - 2 : ℤ)) : ℚ) * (1 / 2) = ((2 ^ 62 - 1 : ℤ) : ℚ) from by
      push_cast; ring]
    rw [ratTrunc_intCast]
    decide
  have hb : tsc2ns ⟨1 / 2, 0, 0, 0⟩ (2 ^ 63) = 2 ^ 64 - 2 ^ 62 := by
    show ((0 : ℕ) + toUInt64 (ratTrunc ((toInt64 (2 ^ 63) : ℚ) * (1 / 2)))) % 2 ^ 64 =
      2 ^ 64 - 2 ^ 62
    rw [show toInt64 (2 ^ 63) = ((-(2 ^ 63) : ℤ)) from by decide]
    rw [show (((-(2 ^ 63) : ℤ)) : ℚ) * (1 / 2) = ((-(2 ^ 62) : ℤ) : ℚ) from by
      push_cast; ring]
    rw [ratTrunc_intCast]
    decide
  rw [ha, hb]
  rw [abs_lt]
  push_cast
  intro h
  obtain ⟨h1, h2⟩ := h
  norm_num at h2

/-- Claim C8 (confirmed): when `ns_offset` stores a negative value `i` in
two's complement and the tick value is large enough that the true
timestamp `i + trunc(ticks * scaleInv)` is non-negative (and below
`2 ^ 64`), the wrapping unsigned addition in `tsc2ns` produces exactly
that mathematically correct positive value. -/
theorem tsc2ns_negative_offset (s : TSCNS) (i : ℤ) (t : ℕ)
    (hneg : i < 0) (hge : -2 ^ 63 ≤ i)
    (hoff : s.ns_offset = toUInt64 i)
    (ht : t < 2 ^ 63)
    (hlo : 0 ≤ i + ratTrunc ((t : ℚ) * s.tsc_ghz_inv))
    (hhi : i + ratTrunc ((t : ℚ) * s.tsc_ghz_inv) < 2 ^ 64) :
    ((tsc2ns s t : ℕ) : ℤ) = i + ratTrunc ((t : ℚ) * s.tsc_ghz_inv) := by
  have hsc : signedConv s t = i + ratTrunc ((t : ℚ) * s.tsc_ghz_inv) := by
    unfold signedConv
    rw [hoff, toInt64_toUInt64 i hge (lt_trans hneg (by norm_num)),
      toInt64_of_lt t ht, Int.cast_natCast]
  rw [tsc2ns_eq_signedConv, hsc]
  exact toUInt64_cast _ hlo hhi

/-- Witness for Claim C8: offset `-100`, scale `1`, tick `1000`: the
conversion yields exactly `900`. -/
theorem tsc2ns_negative_offset_witness :
    ((tsc2ns ⟨1, toUInt64 (-100), 0, 0⟩ 1000 : ℕ) : ℤ) =
      -100 + ratTrunc (((1000 : ℕ) : ℚ) * 1) :=
  tsc2ns_negative_offset ⟨1, toUInt64 (-100), 0, 0⟩ (-100) 1000
    (by norm_num) (by norm_num) rfl (by norm_num)
    (by rw [mul_one, ratTrunc_natCast]; norm_num)
    (by rw [mul_one, ratTrunc_natCast]; norm_num)

end TSC
